import Mathlib

/-!
Verification of the matrix preprocessing module (preprocessing.py):
the transformers Standardize, Bin, Shuffler and PolynomialFeatures,
embedded as Lean functions.  Matrices are lists of rows; fallible code
returns Except; numpy floats are modelled by exact rationals, and by
exact reals where the standard deviation (a square root) is involved.
The file lists all definitions first, then the theorems.
-/

/-! ## Definitions -/

instance {ε α : Type _} [DecidableEq ε] [DecidableEq α] : DecidableEq (Except ε α) :=
  fun a b =>
    match a, b with
    | .ok x, .ok y =>
        if h : x = y then isTrue (by rw [h]) else isFalse (by intro hh; cases hh; exact h rfl)
    | .error x, .error y =>
        if h : x = y then isTrue (by rw [h]) else isFalse (by intro hh; cases hh; exact h rfl)
    | .ok _, .error _ => isFalse (by intro h; cases h)
    | .error _, .ok _ => isFalse (by intro h; cases h)

/-- A matrix (list of rows) is rectangular when every row has the length
of the first row; numpy 2D arrays always satisfy this. -/
def IsRect (M : List (List α)) : Prop :=
  ∀ r ∈ M, r.length = (M.headD []).length

instance (M : List (List α)) : Decidable (IsRect M) := by
  unfold IsRect; infer_instance

/-- The elementwise effect of the loop in bin_by_decile: iterating
i over range(10) reversed, the label is overwritten with i + bin_start
whenever x <= deciles[i].  The initial value 0 comes from
np.zeros_like; deciles are numpy floats that may be np.Inf, modelled
as WithTop rationals.  The getD default is unreachable because
bin_by_decile asserts that exactly 10 deciles are given. -/
def binElem (deciles : List (WithTop ℚ)) (bin_start : ℚ) (x : ℚ) : ℚ :=
  ((List.range 10).reverse).foldl
    (fun acc i => if (x : WithTop ℚ) ≤ deciles.getD i ⊤ then (i : ℚ) + bin_start else acc) 0

/-- bin_by_decile for axis=None: assert the matrix is non-empty and
that there are exactly 10 deciles, then apply the overwrite loop to
every element. -/
def bin_by_decile (matrix : List ℚ) (deciles : List (WithTop ℚ)) (bin_start : ℚ) :
    Except String (List ℚ) :=
  if matrix.length = 0 then .error "assert matrix.size greater than 0"
  else if deciles.length ≠ 10 then .error "assert len deciles is 10"
  else .ok (matrix.map (binElem deciles bin_start))

/-- A python for-loop that builds a list from fallible per-item calls:
stops at the first raised exception. -/
def mapExc {α β : Type _} (f : α → Except String β) : List α → Except String (List β)
  | [] => .ok []
  | a :: t => do
      let b ← f a
      let r ← mapExc f t
      pure (b :: r)

/-- numpy matrix.T for a rectangular matrix represented as a list of
rows: the list of columns, each read off with getD (defaults are
unreachable for rectangular input). -/
def colsOf (M : List (List ℚ)) : List (List ℚ) :=
  (List.range (M.headD []).length).map fun j => M.map fun r => r.getD j 0

/-- Bin.transform with axis_=0 (transform columns): zip the transposed
matrix with the fitted per-column deciles (zip silently truncates to
the shorter list), bin each column, reassemble with vstack(columns).T,
then assert the result shape equals the input shape. -/
def Bin.transformAxis0 (deciles_ : List (List (WithTop ℚ))) (bin_start : ℚ)
    (matrix : List (List ℚ)) : Except String (List (List ℚ)) := do
  let columns ← mapExc (fun cd => bin_by_decile cd.1 cd.2 bin_start)
    ((colsOf matrix).zip deciles_)
  let res := colsOf columns
  if res.length = matrix.length ∧ (res.headD []).length = (matrix.headD []).length then
    pure res
  else .error "assert res.shape equals matrix.shape"

/-- Bin.transform with axis_=1 (transform rows): zip the rows with the
fitted per-row deciles (zip silently truncates), bin each row, vstack,
then assert the result shape equals the input shape. -/
def Bin.transformAxis1 (deciles_ : List (List (WithTop ℚ))) (bin_start : ℚ)
    (matrix : List (List ℚ)) : Except String (List (List ℚ)) := do
  let rows ← mapExc (fun rd => bin_by_decile rd.1 rd.2 bin_start)
    (matrix.zip deciles_)
  if rows.length = matrix.length ∧ (rows.headD []).length = (matrix.headD []).length then
    pure rows
  else .error "assert res.shape equals matrix.shape"

/-- The labeled-matrix collaborator type consumed by Shuffler: a data
matrix with aligned row labels and column labels. -/
structure LMatrix (α β γ : Type _) where
  data : List (List α)
  rowlabels : List β
  columnlabels : List γ

/-- Modelled from the spec: np.random.seed (numpy is external to the
repository) sets the process-wide generator state deterministically
from the seed. -/
def npSeedState (seed : ℕ) : ℕ := seed

/-- Modelled from the spec: one deterministic step of the seeded
pseudo-random generator (a linear congruential step). -/
def lcgNext (s : ℕ) : ℕ := (1103515245 * s + 12345) % 2147483648

/-- Modelled from the spec: np.random.choice(size, size, replace=False)
draws a permutation without replacement from the pool, consuming
generator state: repeatedly pick one remaining element and remove it. -/
def drawLoop (s : ℕ) (pool : List ℕ) : List ℕ × ℕ :=
  if hp : pool = [] then ([], s)
  else
    let k := s % pool.length
    let r := drawLoop (lcgNext s) (pool.eraseIdx k)
    (pool.getD k 0 :: r.1, r.2)
termination_by pool.length
decreasing_by
  have hpos : 0 < pool.length := List.length_pos.mpr hp
  have hk : s % pool.length < pool.length := Nat.mod_lt _ hpos
  simp [List.length_eraseIdx, hk]
  omega

/-- get_shuffle_indices for an integer size: a pseudo-random permutation
of range(size), threading the generator state. -/
def get_shuffle_indices (size : ℕ) (state : ℕ) : List ℕ × ℕ :=
  drawLoop state (List.range size)

/-- numpy fancy indexing l[idx]: pick the entries of l at the positions
listed in idx (the default is unreachable for in-range indices). -/
def applyIdx {α : Type _} [Inhabited α] (l : List α) (idx : List ℕ) : List α :=
  idx.map fun i => l.getD i default

/-- np.argsort: the list of positions of l sorted by the value they
point at (for permutations, ties are absent so stability is moot). -/
def argsort (l : List ℕ) : List ℕ :=
  (List.range l.length).insertionSort fun i j => l.getD i 0 ≤ l.getD j 0

/-- The Shuffler transformer state: flags, optional fitted index
permutations, modelled generator state and the fitted flag. -/
structure Shuffler where
  shuffle_rows_ : Bool
  shuffle_columns_ : Bool
  row_indices_ : Option (List ℕ)
  column_indices_ : Option (List ℕ)
  rng_ : ℕ
  fitted_ : Bool

/-- Shuffler construction: store the flags and optional explicit
indices, seed the generator, mark unfitted. -/
def Shuffler.init (shuffle_rows shuffle_columns : Bool)
    (row_indices column_indices : Option (List ℕ)) (seed : ℕ) : Shuffler :=
  ⟨shuffle_rows, shuffle_columns, row_indices, column_indices, npSeedState seed, false⟩

/-- Shuffler.fit: draw a row permutation of data.shape[0] if row
shuffling is requested and no explicit indices were given; likewise for
columns with data.shape[1]; mark fitted. -/
def Shuffler.fit {α β γ : Type _} (s : Shuffler) (X : LMatrix α β γ) : Shuffler :=
  let ri1 := if s.shuffle_rows_ ∧ s.row_indices_ = none
    then some (get_shuffle_indices X.data.length s.rng_).1 else s.row_indices_
  let st1 := if s.shuffle_rows_ ∧ s.row_indices_ = none
    then (get_shuffle_indices X.data.length s.rng_).2 else s.rng_
  let ci1 := if s.shuffle_columns_ ∧ s.column_indices_ = none
    then some (get_shuffle_indices (X.data.headD []).length st1).1 else s.column_indices_
  let st2 := if s.shuffle_columns_ ∧ s.column_indices_ = none
    then (get_shuffle_indices (X.data.headD []).length st1).2 else st1
  { s with row_indices_ := ri1, column_indices_ := ci1, rng_ := st2, fitted_ := true }

/-- Shuffler.transform: requires a prior fit, then reorders data rows
and row labels by the row permutation and data columns and column
labels by the column permutation (copy only clones, so values are
unchanged by it). -/
def Shuffler.transform {α β γ : Type _} [Inhabited α] [Inhabited β] [Inhabited γ]
    (s : Shuffler) (X : LMatrix α β γ) (copy : Bool) : Except String (LMatrix α β γ) :=
  if ¬ s.fitted_ then .error "The fit function must be called before transform"
  else
    (if s.shuffle_rows_ then
      match s.row_indices_ with
      | some ri => Except.ok { X with data := applyIdx X.data ri,
                                      rowlabels := applyIdx X.rowlabels ri }
      | none => Except.error "TypeError: indices are None"
    else Except.ok X).bind fun X1 =>
      if s.shuffle_columns_ then
        match s.column_indices_ with
        | some ci => Except.ok { X1 with data := X1.data.map fun row => applyIdx row ci,
                                         columnlabels := applyIdx X1.columnlabels ci }
        | none => Except.error "TypeError: indices are None"
      else Except.ok X1

/-- Shuffler.reverse_transform: no fitted-state check; applies the
argsort of each enabled permutation the same way transform does. -/
def Shuffler.reverse_transform {α β γ : Type _} [Inhabited α] [Inhabited β] [Inhabited γ]
    (s : Shuffler) (X : LMatrix α β γ) (copy : Bool) : Except String (LMatrix α β γ) :=
  (if s.shuffle_rows_ then
    match s.row_indices_ with
    | some ri => Except.ok { X with data := applyIdx X.data (argsort ri),
                                    rowlabels := applyIdx X.rowlabels (argsort ri) }
    | none => Except.error "TypeError: argsort of None"
  else Except.ok X).bind fun X1 =>
    if s.shuffle_columns_ then
      match s.column_indices_ with
      | some ci => Except.ok { X1 with data := X1.data.map fun row => applyIdx row (argsort ci),
                                       columnlabels := applyIdx X1.columnlabels (argsort ci) }
      | none => Except.error "TypeError: argsort of None"
    else Except.ok X1

/-- itertools.combinations: the size-k tuples of elements of l without
repetition, in the lexicographic order itertools produces. -/
def combs {α : Type _} : List α → ℕ → List (List α)
  | _, 0 => [[]]
  | [], _ + 1 => []
  | x :: xs, k + 1 => ((combs xs k).map (x :: ·)) ++ combs xs (k + 1)

/-- The list recursion inside combinations_with_replacement for a
fixed tuple size: prev enumerates the size k tuples, and for
x :: xs the size k+1 tuples are x prepended to the size k tuples of
x :: xs followed by the size k+1 tuples of xs. -/
def combsRepAux {α : Type _} (prev : List α → List (List α)) : List α → List (List α)
  | [] => []
  | x :: xs => ((prev (x :: xs)).map (x :: ·)) ++ combsRepAux prev xs

/-- combinations_with_replacement by recursion on the tuple size. -/
def combsRepN {α : Type _} : ℕ → List α → List (List α)
  | 0, _ => [[]]
  | k + 1, l => combsRepAux (combsRepN k) l

/-- itertools.combinations_with_replacement: the size-k non-decreasing
tuples of elements of l, in the lexicographic order itertools
produces: for x :: xs and size k+1, x prepended to the size-k tuples
of x :: xs, then the size-k+1 tuples of xs. -/
def combsRep {α : Type _} (l : List α) (k : ℕ) : List (List α) := combsRepN k l

/-- PolynomialFeatures._combinations: the chain of index combinations
(without repetition when interaction_only, with replacement otherwise)
of sizes start..degree over range(n_features), where start is 0 when
include_bias and 1 otherwise. -/
def polyCombinations (n_features degree : ℕ) (interaction_only include_bias : Bool) :
    List (List ℕ) :=
  ((List.range' (if include_bias then 0 else 1)
      (degree + 1 - (if include_bias then 0 else 1))).map fun i =>
    if interaction_only then combs (List.range n_features) i
    else combsRep (List.range n_features) i).flatten

/-- The PolynomialFeatures hyperparameters set at construction. -/
structure PolynomialFeatures where
  degree_ : ℕ
  interaction_only_ : Bool
  include_bias_ : Bool

/-- The state stored by PolynomialFeatures.fit. -/
structure PolyFitted where
  n_input_features_ : ℕ
  n_output_features_ : ℕ

/-- PolynomialFeatures.fit: assert a non-empty 2D matrix, store the
number of input features (columns) and the number of enumerated
combinations as the number of output features. -/
def PolynomialFeatures.fit {α : Type _} (pp : PolynomialFeatures) (matrix : List (List α)) :
    Except String PolyFitted :=
  if matrix.length = 0 ∨ (matrix.headD []).length = 0 then
    .error "assert matrix.size greater than 0"
  else .ok ⟨(matrix.headD []).length,
    (polyCombinations (matrix.headD []).length pp.degree_ pp.interaction_only_
      pp.include_bias_).length⟩

/-- The string x computed for one output column of the lexical path:
sep.join(np.squeeze(matrix[:, c]).tolist()).  matrix[:, c] has shape
(n_samples, len(c)); np.squeeze drops size-1 axes, so a single-row
selection yields that row (a 1 by 1 selection yields its scalar, which
joins to itself since single-column combinations always use the empty
separator), a single-column selection yields the values down the rows,
and any other shape stays 2D, on which str.join raises a TypeError. -/
def squeezeJoin (matrix : List (List String)) (c : List ℕ) (sep : String) :
    Except String String :=
  if matrix.length = 1 then
    .ok (String.intercalate sep ((matrix.map fun row => c.map fun j => row.getD j "").headD []))
  else if c.length = 1 then
    .ok (String.intercalate sep
      ((matrix.map fun row => c.map fun j => row.getD j "").map fun r => r.headD ""))
  else .error "TypeError: sequence item expected str instance"

/-- PolynomialFeatures.transform on the lexical (string dtype) code
path: after the shape asserts and the feature-count check, each
enumerated combination i, c produces the single string
squeezeJoin matrix c sep (sep is a star for outputs at index at least
n_features + include_bias, empty otherwise), and that one string is
assigned to the whole output column poly_matrix[:, i]. -/
def PolynomialFeatures.transformLex (pp : PolynomialFeatures) (st : PolyFitted)
    (matrix : List (List String)) : Except String (List (List String)) :=
  if matrix.length = 0 ∨ (matrix.headD []).length = 0 then
    .error "assert matrix.size greater than 0"
  else if (matrix.headD []).length ≠ st.n_input_features_ then
    .error "X shape does not match training shape"
  else
    match mapExc (fun ic => squeezeJoin matrix ic.2
        (if (matrix.headD []).length + (if pp.include_bias_ then 1 else 0) ≤ ic.1
          then "*" else ""))
      (polyCombinations (matrix.headD []).length pp.degree_ pp.interaction_only_
        pp.include_bias_).enum with
    | .error e => .error e
    | .ok cols => .ok (List.replicate matrix.length cols)

/-- The per-row concatenation semantics the spec describes for the
lexical path: every output column is computed for each row
independently as the concatenation of that row's selected values, with
no separator below n_features + include_bias and a star separator
above.  Stated from the spec words, to compare against
PolynomialFeatures.transformLex. -/
def lexPerRowSpec (matrix : List (List String)) (degree : ℕ) (io ib : Bool) :
    List (List String) :=
  matrix.map fun row =>
    (polyCombinations (matrix.headD []).length degree io ib).enum.map fun ic =>
      String.intercalate
        (if (matrix.headD []).length + (if ib then 1 else 0) ≤ ic.1 then "*" else "")
        (ic.2.map fun j => row.getD j "")

/-- Modelled from the spec: NEARZERO, the near-zero epsilon of the
util module of the repository (that module is not under src), used as
the division-by-zero guard of the standard deviation check. -/
noncomputable def NEARZERO : ℝ := 1 / 100000000

/-- np.mean of a list of reals. -/
noncomputable def listMean (l : List ℝ) : ℝ := l.sum / l.length

/-- np.std of a list of reals: the square root of the mean squared
deviation from the mean (population standard deviation, ddof 0). -/
noncomputable def listStd (l : List ℝ) : ℝ :=
  Real.sqrt ((l.map fun x => (x - listMean l) ^ 2).sum / l.length)

/-- matrix.T for a rectangular real matrix: the list of columns. -/
def colsOfR (M : List (List ℝ)) : List (List ℝ) :=
  (List.range (M.headD []).length).map fun j => M.map fun r => r.getD j 0

/-- matrix.mean(axis=axis): the per-column means for axis 0, the
per-row means for axis 1. -/
noncomputable def sliceMeans (M : List (List ℝ)) (axis : ℕ) : List ℝ :=
  if axis = 0 then (colsOfR M).map listMean else M.map listMean

/-- matrix.std(axis=axis): the per-column standard deviations for axis
0, the per-row ones for axis 1. -/
noncomputable def sliceStds (M : List (List ℝ)) (axis : ℕ) : List ℝ :=
  if axis = 0 then (colsOfR M).map listStd else M.map listStd

open scoped Classical

/-- get_mean_and_std: assert a non-empty matrix and an in-range axis,
compute the per-slice means and standard deviations, raise if any
standard deviation is within NEARZERO of zero, and return both with
the fit axis kept as a singleton dimension (np.expand_dims): a single
row vector for axis 0, one singleton row per matrix row for axis 1. -/
noncomputable def get_mean_and_std (M : List (List ℝ)) (axis : ℕ) :
    Except String (List (List ℝ) × List (List ℝ)) :=
  if M.length = 0 ∨ (M.headD []).length = 0 then .error "assert matrix.size greater than 0"
  else if 2 ≤ axis then .error "assert axis less than matrix.ndim"
  else if ∃ s ∈ sliceStds M axis, |s| < NEARZERO then
    .error "Standard deviation calculation has near zero values."
  else .ok (if axis = 0 then ([sliceMeans M axis], [sliceStds M axis])
    else ((sliceMeans M axis).map fun x => [x], (sliceStds M axis).map fun x => [x]))

/-- (matrix - mmean) / mstd broadcast for axis 0: mmean and mstd are
row vectors applied to every row columnwise. -/
noncomputable def subDiv0 (M : List (List ℝ)) (means stds : List ℝ) : List (List ℝ) :=
  M.map fun row => (row.zip (means.zip stds)).map fun p => (p.1 - p.2.1) / p.2.2

/-- (matrix - mmean) / mstd broadcast for axis 1: mmean and mstd are
column vectors applied to every row as a whole. -/
noncomputable def subDiv1 (M : List (List ℝ)) (means stds : List ℝ) : List (List ℝ) :=
  (M.zip (means.zip stds)).map fun p => p.1.map fun x => (x - p.2.1) / p.2.2

/-- matrix * mstd + mmean broadcast for axis 0. -/
noncomputable def mulAdd0 (M : List (List ℝ)) (means stds : List ℝ) : List (List ℝ) :=
  M.map fun row => (row.zip (means.zip stds)).map fun p => p.1 * p.2.2 + p.2.1

/-- matrix * mstd + mmean broadcast for axis 1. -/
noncomputable def mulAdd1 (M : List (List ℝ)) (means stds : List ℝ) : List (List ℝ) :=
  (M.zip (means.zip stds)).map fun p => p.1.map fun x => x * p.2.2 + p.2.1

/-- The value computed by standardize: (matrix - mmean) / mstd with
mmean, mstd carrying the expand_dims singleton of the fit axis. -/
noncomputable def standardizeVals (M : List (List ℝ)) (mmean mstd : List (List ℝ))
    (axis : ℕ) : List (List ℝ) :=
  if axis = 0 then subDiv0 M (mmean.headD []) (mstd.headD [])
  else subDiv1 M (mmean.map fun r => r.headD 0) (mstd.map fun r => r.headD 0)

/-- The value computed by reverse_standardize: matrix * mstd + mmean. -/
noncomputable def reverse_standardizeVals (M : List (List ℝ)) (mmean mstd : List (List ℝ))
    (axis : ℕ) : List (List ℝ) :=
  if axis = 0 then mulAdd0 M (mmean.headD []) (mstd.headD [])
  else mulAdd1 M (mmean.map fun r => r.headD 0) (mstd.map fun r => r.headD 0)

/-- standardize with copy=True (the default used by transform): after
the asserts, return the new array (matrix - mmean) / mstd. -/
noncomputable def standardize (matrix : List (List ℝ)) (mmean mstd : List (List ℝ))
    (axis : ℕ) : Except String (List (List ℝ)) :=
  if matrix.length = 0 ∨ (matrix.headD []).length = 0 then
    .error "assert matrix.size greater than 0"
  else if 2 ≤ axis then .error "assert axis less than matrix.ndim"
  else .ok (standardizeVals matrix mmean mstd axis)

/-- reverse_standardize with copy=True: after the asserts, return the
new array matrix * mstd + mmean. -/
noncomputable def reverse_standardize (matrix : List (List ℝ)) (mmean mstd : List (List ℝ))
    (axis : ℕ) : Except String (List (List ℝ)) :=
  if matrix.length = 0 ∨ (matrix.headD []).length = 0 then
    .error "assert matrix.size greater than 0"
  else if 2 ≤ axis then .error "assert axis less than matrix.ndim"
  else .ok (reverse_standardizeVals matrix mmean mstd axis)

/-- A numpy buffer: an element dtype tag and the stored values. -/
structure NdArr where
  dtype : String
  vals : List (List ℝ)

instance : Inhabited NdArr := ⟨⟨"float64", []⟩⟩

/-- The storage model: aliasing is which buffer index an array
reference designates. -/
structure Store where
  bufs : List NdArr

/-- standardize at the storage level: the matrix argument is a buffer
reference.  The in-place dtype guard is the first statement of the
source, so raising it returns the store unchanged; then the asserts;
copy=True allocates a fresh float64 buffer holding
(matrix - mmean) / mstd and leaves the argument buffer untouched,
copy=False overwrites the referenced buffer in place. -/
noncomputable def standardizeOp (σ : Store) (ref : ℕ) (mmean mstd : List (List ℝ))
    (axis : ℕ) (copy : Bool) : Except (String × Store) (Store × ℕ) :=
  if ¬ copy ∧ (σ.bufs.getD ref default).dtype ≠ "float64" then
    .error ("Matrix should be of type float64", σ)
  else if (σ.bufs.getD ref default).vals.length = 0 ∨
      ((σ.bufs.getD ref default).vals.headD []).length = 0 then
    .error ("assert matrix.size greater than 0", σ)
  else if 2 ≤ axis then .error ("assert axis less than matrix.ndim", σ)
  else if copy then
    .ok (⟨σ.bufs ++ [⟨"float64",
      standardizeVals (σ.bufs.getD ref default).vals mmean mstd axis⟩]⟩, σ.bufs.length)
  else
    .ok (⟨σ.bufs.set ref ⟨(σ.bufs.getD ref default).dtype,
      standardizeVals (σ.bufs.getD ref default).vals mmean mstd axis⟩⟩, ref)

/-- reverse_standardize at the storage level, mirroring standardizeOp
with matrix * mstd + mmean. -/
noncomputable def reverse_standardizeOp (σ : Store) (ref : ℕ) (mmean mstd : List (List ℝ))
    (axis : ℕ) (copy : Bool) : Except (String × Store) (Store × ℕ) :=
  if ¬ copy ∧ (σ.bufs.getD ref default).dtype ≠ "float64" then
    .error ("Matrix should be of type float64", σ)
  else if (σ.bufs.getD ref default).vals.length = 0 ∨
      ((σ.bufs.getD ref default).vals.headD []).length = 0 then
    .error ("assert matrix.size greater than 0", σ)
  else if 2 ≤ axis then .error ("assert axis less than matrix.ndim", σ)
  else if copy then
    .ok (⟨σ.bufs ++ [⟨"float64",
      reverse_standardizeVals (σ.bufs.getD ref default).vals mmean mstd axis⟩]⟩, σ.bufs.length)
  else
    .ok (⟨σ.bufs.set ref ⟨(σ.bufs.getD ref default).dtype,
      reverse_standardizeVals (σ.bufs.getD ref default).vals mmean mstd axis⟩⟩, ref)

/-! ## Theorems -/

theorem list_len_ten {α : Type _} (l : List α) (h : l.length = 10) :
    ∃ a0 a1 a2 a3 a4 a5 a6 a7 a8 a9, l = [a0, a1, a2, a3, a4, a5, a6, a7, a8, a9] := by
  rcases l with _ | ⟨a0, _ | ⟨a1, _ | ⟨a2, _ | ⟨a3, _ | ⟨a4, _ | ⟨a5, _ | ⟨a6, _ |
    ⟨a7, _ | ⟨a8, _ | ⟨a9, _ | ⟨a10, t⟩⟩⟩⟩⟩⟩⟩⟩⟩⟩⟩ <;>
      simp only [List.length_cons, List.length_nil] at h <;> try omega
  exact ⟨a0, a1, a2, a3, a4, a5, a6, a7, a8, a9, rfl⟩

theorem binElem_unfold (d0 d1 d2 d3 d4 d5 d6 d7 d8 d9 : WithTop ℚ) (b x : ℚ) :
    binElem [d0, d1, d2, d3, d4, d5, d6, d7, d8, d9] b x =
      (if (x : WithTop ℚ) ≤ d0 then ((0 : ℕ) : ℚ) + b else
       if (x : WithTop ℚ) ≤ d1 then ((1 : ℕ) : ℚ) + b else
       if (x : WithTop ℚ) ≤ d2 then ((2 : ℕ) : ℚ) + b else
       if (x : WithTop ℚ) ≤ d3 then ((3 : ℕ) : ℚ) + b else
       if (x : WithTop ℚ) ≤ d4 then ((4 : ℕ) : ℚ) + b else
       if (x : WithTop ℚ) ≤ d5 then ((5 : ℕ) : ℚ) + b else
       if (x : WithTop ℚ) ≤ d6 then ((6 : ℕ) : ℚ) + b else
       if (x : WithTop ℚ) ≤ d7 then ((7 : ℕ) : ℚ) + b else
       if (x : WithTop ℚ) ≤ d8 then ((8 : ℕ) : ℚ) + b else
       if (x : WithTop ℚ) ≤ d9 then ((9 : ℕ) : ℚ) + b else 0) := rfl

theorem binElem_char (d0 d1 d2 d3 d4 d5 d6 d7 d8 d9 : WithTop ℚ) (b x : ℚ)
    (h9 : (x : WithTop ℚ) ≤ d9) :
    ∃ i, i < 10 ∧
      ((x : WithTop ℚ) ≤ [d0, d1, d2, d3, d4, d5, d6, d7, d8, d9].getD i ⊤) ∧
      (∀ j, j < i → ¬ ((x : WithTop ℚ) ≤ [d0, d1, d2, d3, d4, d5, d6, d7, d8, d9].getD j ⊤)) ∧
      binElem [d0, d1, d2, d3, d4, d5, d6, d7, d8, d9] b x = (i : ℚ) + b := by
  have hu := binElem_unfold d0 d1 d2 d3 d4 d5 d6 d7 d8 d9 b x
  by_cases h0 : (x : WithTop ℚ) ≤ d0
  · exact ⟨0, by norm_num, h0, by omega, by rw [hu, if_pos h0]⟩
  by_cases h1 : (x : WithTop ℚ) ≤ d1
  · refine ⟨1, by norm_num, h1, ?_, by rw [hu, if_neg h0, if_pos h1]⟩
    intro j hj; interval_cases j; exact h0
  by_cases h2 : (x : WithTop ℚ) ≤ d2
  · refine ⟨2, by norm_num, h2, ?_, by rw [hu, if_neg h0, if_neg h1, if_pos h2]⟩
    intro j hj; interval_cases j
    · exact h0
    · exact h1
  by_cases h3 : (x : WithTop ℚ) ≤ d3
  · refine ⟨3, by norm_num, h3, ?_, by rw [hu, if_neg h0, if_neg h1, if_neg h2, if_pos h3]⟩
    intro j hj; interval_cases j
    · exact h0
    · exact h1
    · exact h2
  by_cases h4 : (x : WithTop ℚ) ≤ d4
  · refine ⟨4, by norm_num, h4, ?_,
      by rw [hu, if_neg h0, if_neg h1, if_neg h2, if_neg h3, if_pos h4]⟩
    intro j hj; interval_cases j
    · exact h0
    · exact h1
    · exact h2
    · exact h3
  by_cases h5 : (x : WithTop ℚ) ≤ d5
  · refine ⟨5, by norm_num, h5, ?_,
      by rw [hu, if_neg h0, if_neg h1, if_neg h2, if_neg h3, if_neg h4, if_pos h5]⟩
    intro j hj; interval_cases j
    · exact h0
    · exact h1
    · exact h2
    · exact h3
    · exact h4
  by_cases h6 : (x : WithTop ℚ) ≤ d6
  · refine ⟨6, by norm_num, h6, ?_,
      by rw [hu, if_neg h0, if_neg h1, if_neg h2, if_neg h3, if_neg h4, if_neg h5, if_pos h6]⟩
    intro j hj; interval_cases j
    · exact h0
    · exact h1
    · exact h2
    · exact h3
    · exact h4
    · exact h5
  by_cases h7 : (x : WithTop ℚ) ≤ d7
  · refine ⟨7, by norm_num, h7, ?_,
      by rw [hu, if_neg h0, if_neg h1, if_neg h2, if_neg h3, if_neg h4, if_neg h5, if_neg h6,
        if_pos h7]⟩
    intro j hj; interval_cases j
    · exact h0
    · exact h1
    · exact h2
    · exact h3
    · exact h4
    · exact h5
    · exact h6
  by_cases h8 : (x : WithTop ℚ) ≤ d8
  · refine ⟨8, by norm_num, h8, ?_,
      by rw [hu, if_neg h0, if_neg h1, if_neg h2, if_neg h3, if_neg h4, if_neg h5, if_neg h6,
        if_neg h7, if_pos h8]⟩
    intro j hj; interval_cases j
    · exact h0
    · exact h1
    · exact h2
    · exact h3
    · exact h4
    · exact h5
    · exact h6
    · exact h7
  · refine ⟨9, by norm_num, h9, ?_,
      by rw [hu, if_neg h0, if_neg h1, if_neg h2, if_neg h3, if_neg h4, if_neg h5, if_neg h6,
        if_neg h7, if_neg h8, if_pos h9]⟩
    intro j hj; interval_cases j
    · exact h0
    · exact h1
    · exact h2
    · exact h3
    · exact h4
    · exact h5
    · exact h6
    · exact h7
    · exact h8

theorem getD_map_of_lt {α β : Type _} (f : α → β) (l : List α) (k : ℕ) (d : α) (e : β)
    (hk : k < l.length) : (l.map f).getD k e = f (l.getD k d) := by
  induction l generalizing k with
  | nil => simp at hk
  | cons a t ih =>
      cases k with
      | zero => simp
      | succ k => simpa using ih k (by simpa using hk)

/-- C1: for every non-empty matrix and every decile array of length 10 whose
last entry is plus infinity, the transform of Bin assigns to each element the
label bin_start + i where i is the smallest index in 0..9 with
element <= deciles[i]; hence every label lies between bin_start and
bin_start + 9, and an element strictly above all nine finite deciles gets
bin_start + 9. -/
theorem bin_label_spec (m : List ℚ) (d : List (WithTop ℚ)) (b : ℚ)
    (hm : m ≠ []) (hd : d.length = 10) (hlast : d.getD 9 ⊤ = ⊤) :
    ∃ out, bin_by_decile m d b = .ok out ∧ out.length = m.length ∧
      ∀ k, k < m.length →
        ((∃ i, i < 10 ∧ ((m.getD k 0 : ℚ) : WithTop ℚ) ≤ d.getD i ⊤ ∧
            (∀ j, j < i → ¬ (((m.getD k 0 : ℚ) : WithTop ℚ) ≤ d.getD j ⊤)) ∧
            out.getD k 0 = (i : ℚ) + b) ∧
          b ≤ out.getD k 0 ∧ out.getD k 0 ≤ b + 9 ∧
          ((∀ j, j < 9 → ¬ (((m.getD k 0 : ℚ) : WithTop ℚ) ≤ d.getD j ⊤)) →
            out.getD k 0 = b + 9)) := by
  obtain ⟨a0, a1, a2, a3, a4, a5, a6, a7, a8, a9, rfl⟩ := list_len_ten d hd
  have ha9 : a9 = ⊤ := hlast
  subst ha9
  refine ⟨m.map (binElem [a0, a1, a2, a3, a4, a5, a6, a7, a8, ⊤] b), ?_, by simp, ?_⟩
  · unfold bin_by_decile
    rw [if_neg (by simpa using hm), if_neg (by simp)]
  · intro k hk
    have hout : (m.map (binElem [a0, a1, a2, a3, a4, a5, a6, a7, a8, ⊤] b)).getD k 0 =
        binElem [a0, a1, a2, a3, a4, a5, a6, a7, a8, ⊤] b (m.getD k 0) :=
      getD_map_of_lt _ _ _ 0 0 hk
    obtain ⟨i, hi10, hsat, hmin, hval⟩ :=
      binElem_char a0 a1 a2 a3 a4 a5 a6 a7 a8 ⊤ b (m.getD k 0) le_top
    have hcast9 : (i : ℚ) ≤ 9 := by exact_mod_cast Nat.lt_succ_iff.mp hi10
    refine ⟨⟨i, hi10, hsat, hmin, by rw [hout, hval]⟩, ?_, ?_, ?_⟩
    · rw [hout, hval]
      have : (0 : ℚ) ≤ (i : ℚ) := Nat.cast_nonneg i
      linarith
    · rw [hout, hval]
      linarith
    · intro h9all
      have hi9 : i = 9 := by
        by_contra hne
        exact (h9all i (by omega)) hsat
      rw [hout, hval, hi9]
      push_cast
      ring

theorem mapExc_ok {α β : Type _} (f : α → Except String β) (g : α → β) (l : List α)
    (h : ∀ x ∈ l, f x = .ok (g x)) : mapExc f l = .ok (l.map g) := by
  induction l with
  | nil => rfl
  | cons a t ih =>
      have ha := h a (by simp)
      have ht := ih fun x hx => h x (by simp [hx])
      simp [mapExc, ha, ht]
      rfl

theorem getD_range_lt (n i d : ℕ) (h : i < n) : (List.range n).getD i d = i := by
  rw [List.getD_eq_getElem _ _ (by simpa using h), List.getElem_range]

theorem getD_zip_lt {α β : Type _} (l₁ : List α) (l₂ : List β) (k : ℕ) (d₁ : α) (d₂ : β)
    (h₁ : k < l₁.length) (h₂ : k < l₂.length) :
    (l₁.zip l₂).getD k (d₁, d₂) = (l₁.getD k d₁, l₂.getD k d₂) := by
  rw [List.getD_eq_getElem _ _ (by rw [List.length_zip]; omega), List.getElem_zip,
    List.getD_eq_getElem _ _ h₁, List.getD_eq_getElem _ _ h₂]

theorem exceptOkBind {ε α β : Type _} (a : α) (f : α → Except ε β) :
    (Except.ok a : Except ε α) >>= f = f a := rfl

theorem headD_eq_getD {α : Type _} (l : List α) (d : α) : l.headD d = l.getD 0 d := by
  cases l <;> rfl

theorem colsOf_length (M : List (List ℚ)) : (colsOf M).length = (M.headD []).length := by
  simp [colsOf]

theorem colsOf_getD (M : List (List ℚ)) (j : ℕ) (hj : j < (M.headD []).length) :
    (colsOf M).getD j [] = M.map fun r => r.getD j 0 := by
  unfold colsOf
  rw [getD_map_of_lt (fun j => M.map fun r => r.getD j 0) (List.range _) j 0 []
    (by simpa using hj), getD_range_lt _ _ _ hj]

theorem binTransformAxis0_spec (ds : List (List (WithTop ℚ))) (b : ℚ) (M : List (List ℚ))
    (hrect : IsRect M) (hM : M ≠ []) (hc : (M.headD []).length ≠ 0)
    (h10 : ∀ dl ∈ ds, dl.length = 10) (hle : (M.headD []).length ≤ ds.length) :
    ∃ out, Bin.transformAxis0 ds b M = .ok out ∧ out.length = M.length ∧
      (out.headD []).length = (M.headD []).length ∧
      ∀ i, i < M.length → ∀ j, j < (M.headD []).length →
        (out.getD i []).getD j 0 = binElem (ds.getD j []) b ((M.getD i []).getD j 0) := by
  have hMlen : M.length ≠ 0 := by simpa using hM
  have hcolslen : (colsOf M).length = (M.headD []).length := colsOf_length M
  have hzlen : ((colsOf M).zip ds).length = (M.headD []).length := by
    rw [List.length_zip, hcolslen]; omega
  have hok : ∀ cd ∈ (colsOf M).zip ds,
      bin_by_decile cd.1 cd.2 b = .ok (cd.1.map (binElem cd.2 b)) := by
    intro cd hcd
    have h1 : cd.1 ∈ colsOf M := (List.of_mem_zip hcd).1
    have h2 : cd.2 ∈ ds := (List.of_mem_zip hcd).2
    have hl1 : cd.1.length = M.length := by
      unfold colsOf at h1
      obtain ⟨j, -, hj⟩ := List.mem_map.mp h1
      rw [← hj]; simp
    unfold bin_by_decile
    rw [if_neg (by rw [hl1]; exact hMlen), if_neg (by simpa using h10 cd.2 h2)]
  have hmapped := mapExc_ok (fun cd => bin_by_decile cd.1 cd.2 b)
    (fun cd => cd.1.map (binElem cd.2 b)) ((colsOf M).zip ds) hok
  set bc := ((colsOf M).zip ds).map fun cd => cd.1.map (binElem cd.2 b) with hbc
  have hbclen : bc.length = (M.headD []).length := by
    rw [hbc, List.length_map, hzlen]
  have hbc_head_len : (bc.headD []).length = M.length := by
    rw [headD_eq_getD, hbc,
      getD_map_of_lt (fun cd => cd.1.map (binElem cd.2 b)) _ 0 ([], []) [] (by omega),
      getD_zip_lt _ _ 0 [] [] (by omega) (by omega), List.length_map,
      colsOf_getD M 0 (by omega), List.length_map]
  have hreslen : (colsOf bc).length = M.length := by rw [colsOf_length, hbc_head_len]
  have hresheadlen : ((colsOf bc).headD []).length = (M.headD []).length := by
    rw [headD_eq_getD, colsOf_getD bc 0 (by omega), List.length_map, hbclen]
  refine ⟨colsOf bc, ?_, hreslen, hresheadlen, ?_⟩
  · unfold Bin.transformAxis0
    rw [hmapped, exceptOkBind, if_pos ⟨hreslen, hresheadlen⟩]
    rfl
  · intro i hi j hj
    rw [colsOf_getD bc i (by rw [hbc_head_len]; exact hi),
      getD_map_of_lt (fun r => r.getD i 0) bc j [] 0 (by rw [hbclen]; exact hj), hbc,
      getD_map_of_lt (fun cd => cd.1.map (binElem cd.2 b)) _ j ([], []) [] (by omega),
      getD_zip_lt _ _ j [] [] (by omega) (by omega)]
    dsimp only
    rw [colsOf_getD M j hj,
      getD_map_of_lt (binElem (ds.getD j []) b) _ i 0 0 (by simpa using hi),
      getD_map_of_lt (fun r => r.getD j 0) M i [] 0 hi]

theorem binTransformAxis1_spec (ds : List (List (WithTop ℚ))) (b : ℚ) (N : List (List ℚ))
    (hrect : IsRect N) (hN : N ≠ []) (hc : (N.headD []).length ≠ 0)
    (h10 : ∀ dl ∈ ds, dl.length = 10) (hle : N.length ≤ ds.length) :
    ∃ out, Bin.transformAxis1 ds b N = .ok out ∧ out.length = N.length ∧
      (out.headD []).length = (N.headD []).length ∧
      ∀ i, i < N.length →
        out.getD i [] = (N.getD i []).map (binElem (ds.getD i []) b) := by
  have hNlen : N.length ≠ 0 := by simpa using hN
  have hzlen : (N.zip ds).length = N.length := by
    rw [List.length_zip]; omega
  have hok : ∀ rd ∈ N.zip ds,
      bin_by_decile rd.1 rd.2 b = .ok (rd.1.map (binElem rd.2 b)) := by
    intro rd hrd
    have h1 : rd.1 ∈ N := (List.of_mem_zip hrd).1
    have h2 : rd.2 ∈ ds := (List.of_mem_zip hrd).2
    unfold bin_by_decile
    rw [if_neg (by rw [hrect rd.1 h1]; exact hc), if_neg (by simpa using h10 rd.2 h2)]
  have hmapped := mapExc_ok (fun rd => bin_by_decile rd.1 rd.2 b)
    (fun rd => rd.1.map (binElem rd.2 b)) (N.zip ds) hok
  set rows := (N.zip ds).map fun rd => rd.1.map (binElem rd.2 b) with hrows
  have hrowslen : rows.length = N.length := by rw [hrows, List.length_map, hzlen]
  have hrows_head_len : (rows.headD []).length = (N.headD []).length := by
    rw [headD_eq_getD, hrows,
      getD_map_of_lt (fun rd => rd.1.map (binElem rd.2 b)) _ 0 ([], []) [] (by omega),
      getD_zip_lt _ _ 0 [] [] (by omega) (by omega), List.length_map, headD_eq_getD]
  refine ⟨rows, ?_, hrowslen, hrows_head_len, ?_⟩
  · unfold Bin.transformAxis1
    rw [hmapped, exceptOkBind, if_pos ⟨hrowslen, hrows_head_len⟩]
    rfl
  · intro i hi
    rw [hrows,
      getD_map_of_lt (fun rd => rd.1.map (binElem rd.2 b)) _ i ([], []) [] (by omega),
      getD_zip_lt _ _ i [] [] (by omega) (by omega)]

/-- C9: for a Bin fitted with axis=0 on a matrix with n columns,
transform accepts any non-empty matrix with at most n columns without
raising: the per-column zip silently truncates to the shorter of the
input columns and the fitted decile lists, each input column is binned
with the fitted deciles of the same position, and the output shape
equals the input shape; analogously for axis=1 with rows. -/
theorem bin_transform_truncating_zip (ds : List (List (WithTop ℚ))) (b : ℚ)
    (h10 : ∀ dl ∈ ds, dl.length = 10) :
    (∀ M : List (List ℚ), IsRect M → M ≠ [] → (M.headD []).length ≠ 0 →
      (M.headD []).length ≤ ds.length →
      ∃ out, Bin.transformAxis0 ds b M = .ok out ∧ out.length = M.length ∧
        (out.headD []).length = (M.headD []).length ∧
        ∀ i, i < M.length → ∀ j, j < (M.headD []).length →
          (out.getD i []).getD j 0 = binElem (ds.getD j []) b ((M.getD i []).getD j 0)) ∧
    (∀ N : List (List ℚ), IsRect N → N ≠ [] → (N.headD []).length ≠ 0 →
      N.length ≤ ds.length →
      ∃ out, Bin.transformAxis1 ds b N = .ok out ∧ out.length = N.length ∧
        (out.headD []).length = (N.headD []).length ∧
        ∀ i, i < N.length →
          out.getD i [] = (N.getD i []).map (binElem (ds.getD i []) b)) :=
  ⟨fun M h1 h2 h3 h4 => binTransformAxis0_spec ds b M h1 h2 h3 h10 h4,
   fun N h1 h2 h3 h4 => binTransformAxis1_spec ds b N h1 h2 h3 h10 h4⟩

/-- Witness for C9: a Bin fitted on two columns transforms a two-row
one-column matrix without raising, with the output shape equal to the
input shape. -/
theorem bin_transform_truncating_zip_witness : ∃ out,
    Bin.transformAxis0
      [[((1 : ℚ) : WithTop ℚ), ((2 : ℚ) : WithTop ℚ), ((3 : ℚ) : WithTop ℚ),
        ((4 : ℚ) : WithTop ℚ), ((5 : ℚ) : WithTop ℚ), ((6 : ℚ) : WithTop ℚ),
        ((7 : ℚ) : WithTop ℚ), ((8 : ℚ) : WithTop ℚ), ((9 : ℚ) : WithTop ℚ), ⊤],
       [((1 : ℚ) : WithTop ℚ), ((2 : ℚ) : WithTop ℚ), ((3 : ℚ) : WithTop ℚ),
        ((4 : ℚ) : WithTop ℚ), ((5 : ℚ) : WithTop ℚ), ((6 : ℚ) : WithTop ℚ),
        ((7 : ℚ) : WithTop ℚ), ((8 : ℚ) : WithTop ℚ), ((9 : ℚ) : WithTop ℚ), ⊤]] 0
      [[(0 : ℚ)], [(3 : ℚ)]] = .ok out ∧
    out.length = 2 ∧ (out.headD []).length = 1 := by
  obtain ⟨out, hok, hlen, hhead, -⟩ :=
    (bin_transform_truncating_zip
      [[((1 : ℚ) : WithTop ℚ), ((2 : ℚ) : WithTop ℚ), ((3 : ℚ) : WithTop ℚ),
        ((4 : ℚ) : WithTop ℚ), ((5 : ℚ) : WithTop ℚ), ((6 : ℚ) : WithTop ℚ),
        ((7 : ℚ) : WithTop ℚ), ((8 : ℚ) : WithTop ℚ), ((9 : ℚ) : WithTop ℚ), ⊤],
       [((1 : ℚ) : WithTop ℚ), ((2 : ℚ) : WithTop ℚ), ((3 : ℚ) : WithTop ℚ),
        ((4 : ℚ) : WithTop ℚ), ((5 : ℚ) : WithTop ℚ), ((6 : ℚ) : WithTop ℚ),
        ((7 : ℚ) : WithTop ℚ), ((8 : ℚ) : WithTop ℚ), ((9 : ℚ) : WithTop ℚ), ⊤]] 0
      (by decide)).1
    [[(0 : ℚ)], [(3 : ℚ)]] (by decide) (by decide) (by decide) (by decide)
  exact ⟨out, hok, hlen, hhead⟩

/-- Witness for C1 at the matrix with the single element 5, deciles
1..9 and plus infinity, and bin_start 1: the binned label is between 1
and 10. -/
theorem bin_label_spec_witness : ∃ out,
    bin_by_decile [(5 : ℚ)]
      [((1 : ℚ) : WithTop ℚ), ((2 : ℚ) : WithTop ℚ), ((3 : ℚ) : WithTop ℚ),
       ((4 : ℚ) : WithTop ℚ), ((5 : ℚ) : WithTop ℚ), ((6 : ℚ) : WithTop ℚ),
       ((7 : ℚ) : WithTop ℚ), ((8 : ℚ) : WithTop ℚ), ((9 : ℚ) : WithTop ℚ), ⊤] 1 = .ok out ∧
    1 ≤ out.getD 0 0 ∧ out.getD 0 0 ≤ 10 := by
  obtain ⟨out, hok, hlen, hk⟩ := bin_label_spec [(5 : ℚ)]
    [((1 : ℚ) : WithTop ℚ), ((2 : ℚ) : WithTop ℚ), ((3 : ℚ) : WithTop ℚ),
     ((4 : ℚ) : WithTop ℚ), ((5 : ℚ) : WithTop ℚ), ((6 : ℚ) : WithTop ℚ),
     ((7 : ℚ) : WithTop ℚ), ((8 : ℚ) : WithTop ℚ), ((9 : ℚ) : WithTop ℚ), ⊤] 1
    (by decide) (by decide) (by decide)
  obtain ⟨-, h1, h2, -⟩ := hk 0 (by norm_num)
  exact ⟨out, hok, h1, by linarith⟩

theorem cons_eraseIdx_perm {α : Type _} :
    ∀ (l : List α) (k : ℕ) (d : α), k < l.length →
      (l.getD k d :: l.eraseIdx k).Perm l := by
  intro l
  induction l with
  | nil => intro k d hk; simp at hk
  | cons a t ih =>
      intro k d hk
      cases k with
      | zero => simp
      | succ k =>
          have hk' : k < t.length := by simpa using hk
          have hih := ih k d hk'
          have step1 : (t.getD k d :: a :: t.eraseIdx k).Perm
              (a :: t.getD k d :: t.eraseIdx k) := List.Perm.swap _ _ _
          have step2 : (a :: t.getD k d :: t.eraseIdx k).Perm (a :: t) := hih.cons a
          exact step1.trans step2

theorem drawLoop_perm : ∀ (n : ℕ) (s : ℕ) (pool : List ℕ), pool.length = n →
    (drawLoop s pool).1.Perm pool := by
  intro n
  induction n using Nat.strong_induction_on with
  | _ n ih =>
      intro s pool hlen
      rw [drawLoop]
      by_cases hp : pool = []
      · subst hp; simp
      · rw [dif_neg hp]
        have hpos : 0 < pool.length := List.length_pos.mpr hp
        have hk : s % pool.length < pool.length := Nat.mod_lt _ hpos
        have hel : (pool.eraseIdx (s % pool.length)).length = pool.length - 1 := by
          simp [List.length_eraseIdx, hk]
        have hperm := ih (pool.length - 1) (by omega) (lcgNext s) _ hel
        exact (hperm.cons _).trans (cons_eraseIdx_perm pool _ 0 hk)

theorem get_shuffle_indices_perm (size state : ℕ) :
    (get_shuffle_indices size state).1.Perm (List.range size) :=
  drawLoop_perm (List.range size).length state (List.range size) rfl

theorem argsort_perm (l : List ℕ) : (argsort l).Perm (List.range l.length) :=
  List.perm_insertionSort _ _

theorem argsort_length (l : List ℕ) : (argsort l).length = l.length := by
  simpa using (argsort_perm l).length_eq

theorem argsort_sorted (l : List ℕ) :
    List.Sorted (fun i j => l.getD i 0 ≤ l.getD j 0) (argsort l) := by
  haveI : IsTotal ℕ (fun i j => l.getD i 0 ≤ l.getD j 0) := ⟨fun a b => le_total _ _⟩
  haveI : IsTrans ℕ (fun i j => l.getD i 0 ≤ l.getD j 0) := ⟨fun a b c => le_trans⟩
  exact List.sorted_insertionSort _ _

theorem map_getD_range {α : Type _} (l : List α) (d : α) :
    (List.range l.length).map (fun i => l.getD i d) = l := by
  induction l with
  | nil => rfl
  | cons a t ih =>
      rw [List.length_cons, List.range_succ_eq_map, List.map_cons, List.map_map]
      have hcomp : ((fun i => (a :: t).getD i d) ∘ Nat.succ) = fun i => t.getD i d := rfl
      rw [hcomp, ih]
      rfl

theorem argsort_map_getD (p : List ℕ) (n : ℕ) (hp : p.Perm (List.range n)) :
    (argsort p).map (fun i => p.getD i 0) = List.range n := by
  have h1 : ((argsort p).map fun i => p.getD i 0).Perm p := by
    have h := (argsort_perm p).map (fun i => p.getD i 0)
    rwa [map_getD_range p 0] at h
  have h2 : ((argsort p).map fun i => p.getD i 0).Perm (List.range n) := h1.trans hp
  have h3 : List.Sorted (· ≤ ·) ((argsort p).map fun i => p.getD i 0) :=
    List.pairwise_map.mpr (argsort_sorted p)
  have h4 : List.Sorted (· ≤ ·) (List.range n) := (List.sorted_lt_range n).imp le_of_lt
  exact List.eq_of_perm_of_sorted h2 h3 h4

theorem argsort_getD (p : List ℕ) (n : ℕ) (hp : p.Perm (List.range n)) (i : ℕ) (hi : i < n) :
    p.getD ((argsort p).getD i 0) 0 = i := by
  have hlen : (argsort p).length = n := by
    rw [argsort_length]; simpa using hp.length_eq
  have h2 : ((argsort p).map fun j => p.getD j 0).getD i 0 = (List.range n).getD i 0 := by
    rw [argsort_map_getD p n hp]
  rw [getD_map_of_lt (fun j => p.getD j 0) (argsort p) i 0 0 (by omega),
    getD_range_lt n i 0 hi] at h2
  exact h2

theorem argsort_getD_lt (p : List ℕ) (n : ℕ) (hp : p.Perm (List.range n)) (i : ℕ)
    (hi : i < n) : (argsort p).getD i 0 < n := by
  have hlen : (argsort p).length = n := by
    rw [argsort_length]; simpa using hp.length_eq
  have hmem : (argsort p).getD i 0 ∈ argsort p := by
    rw [List.getD_eq_getElem _ _ (by omega)]
    exact List.getElem_mem _
  have hpn : p.length = n := by simpa using hp.length_eq
  have hmem2 := (argsort_perm p).mem_iff.mp hmem
  rw [List.mem_range] at hmem2
  omega

theorem ext_getD {α : Type _} (l1 l2 : List α) (d : α) (hlen : l1.length = l2.length)
    (h : ∀ i, i < l1.length → l1.getD i d = l2.getD i d) : l1 = l2 := by
  apply List.ext_getElem hlen
  intro i h1 h2
  rw [← List.getD_eq_getElem l1 d h1, ← List.getD_eq_getElem l2 d h2]
  exact h i h1

theorem applyIdx_length {α : Type _} [Inhabited α] (l : List α) (idx : List ℕ) :
    (applyIdx l idx).length = idx.length := by
  simp [applyIdx]

theorem applyIdx_getD {α : Type _} [Inhabited α] (l : List α) (idx : List ℕ) (i : ℕ)
    (hi : i < idx.length) :
    (applyIdx l idx).getD i default = l.getD (idx.getD i 0) default := by
  unfold applyIdx
  rw [getD_map_of_lt (fun j => l.getD j default) idx i 0 default hi]

theorem perm_range_mem_lt (p : List ℕ) (n : ℕ) (hp : p.Perm (List.range n)) :
    ∀ i ∈ p, i < n := fun i hi => List.mem_range.mp (hp.mem_iff.mp hi)

theorem argsort_mem_lt (p : List ℕ) (n : ℕ) (hp : p.Perm (List.range n)) :
    ∀ i ∈ argsort p, i < n := by
  intro i hi
  have hpn : p.length = n := by simpa using hp.length_eq
  have := perm_range_mem_lt (argsort p) p.length (argsort_perm p) i hi
  omega

theorem applyIdx_applyIdx {α : Type _} [Inhabited α] (l : List α) (p : List ℕ)
    (hp : p.Perm (List.range l.length)) :
    applyIdx (applyIdx l p) (argsort p) = l := by
  have hplen : p.length = l.length := by simpa using hp.length_eq
  have haslen : (argsort p).length = l.length := by rw [argsort_length, hplen]
  have hlen1 : (applyIdx l p).length = l.length := by rw [applyIdx_length, hplen]
  apply ext_getD _ _ default (by rw [applyIdx_length, haslen])
  intro i hi
  rw [applyIdx_length, haslen] at hi
  rw [applyIdx_getD _ _ i (by omega),
    applyIdx_getD l p ((argsort p).getD i 0)
      (by rw [hplen]; exact argsort_getD_lt p l.length hp i hi),
    argsort_getD p l.length hp i hi]

theorem applyIdx_map {α β : Type _} [Inhabited α] [Inhabited β] (g : α → β) (l : List α)
    (idx : List ℕ) (h : ∀ i ∈ idx, i < l.length) :
    applyIdx (l.map g) idx = (applyIdx l idx).map g := by
  unfold applyIdx
  rw [List.map_map]
  apply List.map_congr_left
  intro i hi
  exact getD_map_of_lt g l i default default (h i hi)

theorem shuffler_roundtrip_aux {α β γ : Type _} [Inhabited α] [Inhabited β] [Inhabited γ]
    (s : Shuffler) (X : LMatrix α β γ) (c1 c2 : Bool)
    (hfit : s.fitted_ = true)
    (hrl : X.rowlabels.length = X.data.length)
    (hcl : X.columnlabels.length = (X.data.headD []).length)
    (hrect : IsRect X.data)
    (hr : s.shuffle_rows_ = true → ∃ p, s.row_indices_ = some p ∧
      p.Perm (List.range X.data.length))
    (hc : s.shuffle_columns_ = true → ∃ q, s.column_indices_ = some q ∧
      q.Perm (List.range (X.data.headD []).length)) :
    ∃ Y, s.transform X c1 = .ok Y ∧ s.reverse_transform Y c2 = .ok X := by
  cases hsr : s.shuffle_rows_ with
  | false =>
      cases hsc : s.shuffle_columns_ with
      | false =>
          refine ⟨X, ?_, ?_⟩ <;>
            simp [Shuffler.transform, Shuffler.reverse_transform, hfit, hsr, hsc, Except.bind]
      | true =>
          obtain ⟨q, hqi, hqperm⟩ := hc hsc
          refine ⟨{ X with data := X.data.map fun row => applyIdx row q,
                           columnlabels := applyIdx X.columnlabels q }, ?_, ?_⟩
          · simp [Shuffler.transform, hfit, hsr, hsc, hqi, Except.bind]
          · simp only [Shuffler.reverse_transform, hsr, hsc, hqi, if_false, if_true,
              Bool.false_eq_true, Except.bind]
            have hdata : ((X.data.map fun row => applyIdx row q).map
                fun row => applyIdx row (argsort q)) = X.data := by
              rw [List.map_map]
              have : ∀ row ∈ X.data,
                  applyIdx (applyIdx row q) (argsort q) = row := by
                intro row hrow
                apply applyIdx_applyIdx row q
                rw [hrect row hrow]
                exact hqperm
              calc (X.data.map fun row => applyIdx (applyIdx row q) (argsort q))
                  = X.data.map id := List.map_congr_left this
                _ = X.data := List.map_id X.data
            have hclbl : applyIdx (applyIdx X.columnlabels q) (argsort q) = X.columnlabels := by
              apply applyIdx_applyIdx
              rw [hcl]
              exact hqperm
            simp [hdata, hclbl]
  | true =>
      obtain ⟨p, hpi, hpperm⟩ := hr hsr
      have hpl : p.Perm (List.range X.rowlabels.length) := by rw [hrl]; exact hpperm
      cases hsc : s.shuffle_columns_ with
      | false =>
          refine ⟨{ X with data := applyIdx X.data p,
                           rowlabels := applyIdx X.rowlabels p }, ?_, ?_⟩
          · simp [Shuffler.transform, hfit, hsr, hsc, hpi, Except.bind]
          · simp only [Shuffler.reverse_transform, hsr, hsc, hpi, if_true,
              Bool.false_eq_true, if_false, Except.bind]
            have hdata : applyIdx (applyIdx X.data p) (argsort p) = X.data :=
              applyIdx_applyIdx X.data p hpperm
            have hrlbl : applyIdx (applyIdx X.rowlabels p) (argsort p) = X.rowlabels :=
              applyIdx_applyIdx X.rowlabels p hpl
            simp [hdata, hrlbl]
      | true =>
          obtain ⟨q, hqi, hqperm⟩ := hc hsc
          refine ⟨{ X with data := (applyIdx X.data p).map fun row => applyIdx row q,
                           rowlabels := applyIdx X.rowlabels p,
                           columnlabels := applyIdx X.columnlabels q }, ?_, ?_⟩
          · simp [Shuffler.transform, hfit, hsr, hsc, hpi, hqi, Except.bind]
          · simp only [Shuffler.reverse_transform, hsr, hsc, hpi, hqi, if_true, Except.bind]
            have hstep1 : applyIdx ((applyIdx X.data p).map fun row => applyIdx row q)
                (argsort p) = (applyIdx (applyIdx X.data p) (argsort p)).map
                  fun row => applyIdx row q := by
              apply applyIdx_map
              intro i hi
              rw [applyIdx_length]
              have hpn : p.length = X.data.length := by simpa using hpperm.length_eq
              rw [hpn]
              exact argsort_mem_lt p X.data.length hpperm i hi
            have hstep2 : applyIdx (applyIdx X.data p) (argsort p) = X.data :=
              applyIdx_applyIdx X.data p hpperm
            have hdata : ((X.data.map fun row => applyIdx row q).map
                fun row => applyIdx row (argsort q)) = X.data := by
              rw [List.map_map]
              have : ∀ row ∈ X.data,
                  applyIdx (applyIdx row q) (argsort q) = row := by
                intro row hrow
                apply applyIdx_applyIdx row q
                rw [hrect row hrow]
                exact hqperm
              calc (X.data.map fun row => applyIdx (applyIdx row q) (argsort q))
                  = X.data.map id := List.map_congr_left this
                _ = X.data := List.map_id X.data
            have hrlbl : applyIdx (applyIdx X.rowlabels p) (argsort p) = X.rowlabels :=
              applyIdx_applyIdx X.rowlabels p hpl
            have hclbl : applyIdx (applyIdx X.columnlabels q) (argsort q) = X.columnlabels := by
              apply applyIdx_applyIdx
              rw [hcl]
              exact hqperm
            rw [hstep1, hstep2]
            simp [hdata, hrlbl, hclbl]

/-- C3: for every labeled matrix X and every configuration of the
shuffle_rows/shuffle_columns flags, after Shuffler.fit,
reverse_transform(transform(X)) restores X.data, X.rowlabels and
X.columnlabels exactly (the argsort of the fitted permutation is its
inverse). -/
theorem shuffler_roundtrip {α β γ : Type _} [Inhabited α] [Inhabited β] [Inhabited γ]
    (sr sc : Bool) (seed : ℕ) (X : LMatrix α β γ) (c1 c2 : Bool)
    (hrl : X.rowlabels.length = X.data.length)
    (hcl : X.columnlabels.length = (X.data.headD []).length)
    (hrect : IsRect X.data) :
    ∃ Y, ((Shuffler.init sr sc none none seed).fit X).transform X c1 = .ok Y ∧
      ((Shuffler.init sr sc none none seed).fit X).reverse_transform Y c2 = .ok X := by
  apply shuffler_roundtrip_aux _ X c1 c2 ?hfit hrl hcl hrect ?hr ?hc
  case hfit => rfl
  case hr =>
    intro hsr
    refine ⟨(get_shuffle_indices X.data.length (npSeedState seed)).1, ?_,
      get_shuffle_indices_perm _ _⟩
    simp only [Shuffler.fit, Shuffler.init] at hsr ⊢
    simp [hsr]
  case hc =>
    intro hsc
    simp only [Shuffler.fit, Shuffler.init] at hsc
    by_cases hsr : sr = true
    · refine ⟨(get_shuffle_indices (X.data.headD []).length
        (get_shuffle_indices X.data.length (npSeedState seed)).2).1, ?_,
        get_shuffle_indices_perm _ _⟩
      simp [Shuffler.fit, Shuffler.init, hsr, hsc]
    · refine ⟨(get_shuffle_indices (X.data.headD []).length (npSeedState seed)).1, ?_,
        get_shuffle_indices_perm _ _⟩
      simp only [Bool.not_eq_true] at hsr
      simp [Shuffler.fit, Shuffler.init, hsr, hsc]

/-- Witness for C3: a 2 by 2 labeled matrix with both shuffles enabled
round-trips exactly. -/
theorem shuffler_roundtrip_witness :
    ∃ Y, ((Shuffler.init true true none none 0).fit
        (⟨[[1, 2], [3, 4]], [10, 20], [100, 200]⟩ : LMatrix ℕ ℕ ℕ)).transform
        ⟨[[1, 2], [3, 4]], [10, 20], [100, 200]⟩ true = .ok Y ∧
      ((Shuffler.init true true none none 0).fit
        (⟨[[1, 2], [3, 4]], [10, 20], [100, 200]⟩ : LMatrix ℕ ℕ ℕ)).reverse_transform Y true =
        .ok ⟨[[1, 2], [3, 4]], [10, 20], [100, 200]⟩ :=
  shuffler_roundtrip true true 0 ⟨[[1, 2], [3, 4]], [10, 20], [100, 200]⟩ true true
    (by decide) (by decide) (by decide)

/-- C5: two Shuffler instances constructed with the same seed and the
same flags, each then fit on a matrix of identical shape, store
identical row and column permutations. -/
theorem shuffler_fit_deterministic {α1 β1 γ1 α2 β2 γ2 : Type _} (sr sc : Bool) (seed : ℕ)
    (X1 : LMatrix α1 β1 γ1) (X2 : LMatrix α2 β2 γ2)
    (hrows : X1.data.length = X2.data.length)
    (hcols : (X1.data.headD []).length = (X2.data.headD []).length) :
    ((Shuffler.init sr sc none none seed).fit X1).row_indices_ =
      ((Shuffler.init sr sc none none seed).fit X2).row_indices_ ∧
    ((Shuffler.init sr sc none none seed).fit X1).column_indices_ =
      ((Shuffler.init sr sc none none seed).fit X2).column_indices_ := by
  have hfits : ((Shuffler.init sr sc none none seed).fit X1).row_indices_ =
      ((Shuffler.init sr sc none none seed).fit X2).row_indices_ ∧
      ((Shuffler.init sr sc none none seed).fit X1).column_indices_ =
      ((Shuffler.init sr sc none none seed).fit X2).column_indices_ := by
    unfold Shuffler.fit Shuffler.init
    rw [hrows, hcols]
    exact ⟨rfl, rfl⟩
  exact hfits

/-- Witness for C5: two different 2 by 1 matrices produce the same
fitted permutations for the same seed and flags. -/
theorem shuffler_fit_deterministic_witness :
    ((Shuffler.init true true none none 7).fit
        (⟨[[1], [2]], [0, 1], [0]⟩ : LMatrix ℕ ℕ ℕ)).row_indices_ =
      ((Shuffler.init true true none none 7).fit
        (⟨[[5], [6]], [3, 4], [9]⟩ : LMatrix ℕ ℕ ℕ)).row_indices_ ∧
    ((Shuffler.init true true none none 7).fit
        (⟨[[1], [2]], [0, 1], [0]⟩ : LMatrix ℕ ℕ ℕ)).column_indices_ =
      ((Shuffler.init true true none none 7).fit
        (⟨[[5], [6]], [3, 4], [9]⟩ : LMatrix ℕ ℕ ℕ)).column_indices_ :=
  shuffler_fit_deterministic true true 7 ⟨[[1], [2]], [0, 1], [0]⟩ ⟨[[5], [6]], [3, 4], [9]⟩
    (by decide) (by decide)

/-- C10: Shuffler.reverse_transform performs no fitted-state check:
unlike transform, which raises when fit has not been called,
reverse_transform never raises the unfitted error, and with both
shuffle flags disabled it returns the matrix unchanged. -/
theorem shuffler_reverse_no_fit_check {α β γ : Type _} [Inhabited α] [Inhabited β] [Inhabited γ]
    (s : Shuffler) (X : LMatrix α β γ) (c : Bool) :
    (∀ e, s.reverse_transform X c = .error e →
      e ≠ "The fit function must be called before transform") ∧
    (s.shuffle_rows_ = false → s.shuffle_columns_ = false →
      s.reverse_transform X c = .ok X) ∧
    (s.fitted_ = false →
      s.transform X c = .error "The fit function must be called before transform") := by
  refine ⟨?_, ?_, ?_⟩
  · intro e he
    unfold Shuffler.reverse_transform at he
    cases hsr : s.shuffle_rows_ <;> cases hsc : s.shuffle_columns_ <;>
      cases hri : s.row_indices_ <;> cases hci : s.column_indices_ <;>
        simp [hsr, hsc, hri, hci, Except.bind] at he <;>
      (subst he; decide)
  · intro h1 h2
    simp [Shuffler.reverse_transform, h1, h2, Except.bind]
  · intro h
    simp [Shuffler.transform, h]

/-- Witness for C10: an unfitted Shuffler with both flags off:
reverse_transform succeeds and returns the matrix unchanged while
transform raises the unfitted error. -/
theorem shuffler_reverse_no_fit_check_witness :
    (Shuffler.init false false none none 0).reverse_transform
        (⟨[[1]], [0], [0]⟩ : LMatrix ℕ ℕ ℕ) true = .ok ⟨[[1]], [0], [0]⟩ ∧
    (Shuffler.init false false none none 0).transform
        (⟨[[1]], [0], [0]⟩ : LMatrix ℕ ℕ ℕ) true =
      .error "The fit function must be called before transform" :=
  ⟨(shuffler_reverse_no_fit_check (Shuffler.init false false none none 0)
      ⟨[[1]], [0], [0]⟩ true).2.1 rfl rfl,
   (shuffler_reverse_no_fit_check (Shuffler.init false false none none 0)
      ⟨[[1]], [0], [0]⟩ true).2.2 rfl⟩

theorem combs_length {α : Type _} : ∀ (l : List α) (k : ℕ),
    (combs l k).length = l.length.choose k := by
  intro l
  induction l with
  | nil =>
      intro k
      cases k with
      | zero => simp [combs]
      | succ k => simp [combs]
  | cons x xs ih =>
      intro k
      cases k with
      | zero => simp [combs]
      | succ k =>
          simp only [combs, List.length_append, List.length_map, ih, List.length_cons]
          rw [Nat.choose_succ_succ]

theorem combsRepN_length {α : Type _} : ∀ (k : ℕ) (l : List α),
    (combsRepN k l).length = Nat.multichoose l.length k := by
  intro k
  induction k with
  | zero => intro l; simp [combsRepN]
  | succ k ihk =>
      intro l
      induction l with
      | nil => simp [combsRepN, combsRepAux, Nat.multichoose_zero_succ]
      | cons x xs ihl =>
          have hxs : (combsRepAux (combsRepN k) xs).length =
              Nat.multichoose xs.length (k + 1) := by
            simpa [combsRepN] using ihl
          simp only [combsRepN, combsRepAux, List.length_append, List.length_map, ihk, hxs,
            List.length_cons]
          rw [Nat.multichoose_succ_succ]
          omega

theorem combsRep_length {α : Type _} : ∀ (l : List α) (k : ℕ),
    (combsRep l k).length = Nat.multichoose l.length k :=
  fun l k => combsRepN_length k l

theorem length_flatten_map_range' {β : Type _} (f : ℕ → List β) :
    ∀ (len a : ℕ), (((List.range' a len).map f).flatten).length =
      ∑ i ∈ Finset.Ico a (a + len), (f i).length := by
  intro len
  induction len with
  | zero => intro a; simp
  | succ m ih =>
      intro a
      rw [List.range'_succ, List.map_cons, List.flatten_cons, List.length_append, ih (a + 1),
        Finset.sum_eq_sum_Ico_succ_bot (by omega : a < a + (m + 1))]
      have harg : a + 1 + m = a + (m + 1) := by omega
      rw [harg]

/-- C6: for every 2D non-empty matrix with n columns,
PolynomialFeatures.fit stores n_output_features_ equal to the number of
index combinations of sizes start..degree over n features - counted by
binomial coefficients when interaction_only and multichoose numbers
otherwise, with start 0 when include_bias is set and 1 otherwise. -/
theorem poly_fit_output_count {α : Type _} (pp : PolynomialFeatures) (matrix : List (List α))
    (n : ℕ) (hn : (matrix.headD []).length = n) (h0 : matrix.length ≠ 0) (hc : n ≠ 0) :
    pp.fit matrix = .ok ⟨n,
      ∑ i ∈ Finset.Ico (if pp.include_bias_ then 0 else 1) (pp.degree_ + 1),
        (if pp.interaction_only_ then n.choose i else Nat.multichoose n i)⟩ := by
  unfold PolynomialFeatures.fit
  rw [if_neg (by rw [hn]; simp [h0, hc])]
  rw [hn]
  have hcount : (polyCombinations n pp.degree_ pp.interaction_only_ pp.include_bias_).length =
      ∑ i ∈ Finset.Ico (if pp.include_bias_ then 0 else 1) (pp.degree_ + 1),
        (if pp.interaction_only_ then n.choose i else Nat.multichoose n i) := by
    unfold polyCombinations
    rw [length_flatten_map_range']
    have hends : (if pp.include_bias_ then 0 else 1) +
        (pp.degree_ + 1 - (if pp.include_bias_ then 0 else 1)) = pp.degree_ + 1 := by
      cases pp.include_bias_ <;> simp <;> omega
    rw [hends]
    apply Finset.sum_congr rfl
    intro i hi
    cases hio : pp.interaction_only_ <;>
      simp [combs_length, combsRep_length, List.length_range]
  rw [hcount]

/-- Witness for C6: a 1 by 3 matrix with degree 2, bias included, no
interaction restriction: 10 output features. -/
theorem poly_fit_output_count_witness :
    PolynomialFeatures.fit ⟨2, false, true⟩ ([[1, 2, 3]] : List (List ℕ)) = .ok ⟨3,
      ∑ i ∈ Finset.Ico (if (true : Bool) then 0 else 1) (2 + 1),
        (if (false : Bool) then Nat.choose 3 i else Nat.multichoose 3 i)⟩ :=
  poly_fit_output_count ⟨2, false, true⟩ [[1, 2, 3]] 3 (by decide) (by decide) (by decide)

/-- Counterexample for C4: on the two-row one-column lexical matrix
[[a], [b]] with degree 1 and no bias, transform assigns the cross-row
join ab to both rows of the only output column, while the per-row
description of the claim yields a for the first row and b for the
second. -/
theorem poly_lexical_not_per_row :
    PolynomialFeatures.transformLex ⟨1, false, false⟩ ⟨1, 1⟩ [["a"], ["b"]] =
      .ok [["ab"], ["ab"]] ∧
    lexPerRowSpec [["a"], ["b"]] 1 false false = [["a"], ["b"]] ∧
    ([["ab"], ["ab"]] : List (List String)) ≠ [["a"], ["b"]] :=
  ⟨by decide, by decide, by decide⟩

/-- C4 amended: for every SINGLE-ROW lexical matrix, each output column
is the concatenation of that row's values in the selected input
columns, with no separator for outputs below n_features + include_bias
and a literal star separator for higher-degree combinations; for
matrices with more than one row the implementation instead assigns one
shared string per column (the join of the squeezed whole-column
selection), as the counterexample shows. -/
theorem poly_lexical_single_row (pp : PolynomialFeatures) (row : List String) (nout : ℕ)
    (hrow : row ≠ []) :
    PolynomialFeatures.transformLex pp ⟨row.length, nout⟩ [row] =
      .ok (lexPerRowSpec [row] pp.degree_ pp.interaction_only_ pp.include_bias_) := by
  unfold PolynomialFeatures.transformLex
  rw [if_neg (by simp [List.length_eq_zero, hrow]), if_neg (by simp)]
  have hmap : mapExc (fun ic => squeezeJoin [row] ic.2
      (if ([row].headD []).length + (if pp.include_bias_ then 1 else 0) ≤ ic.1
        then "*" else ""))
      (polyCombinations ([row].headD []).length pp.degree_ pp.interaction_only_
        pp.include_bias_).enum = .ok
      ((polyCombinations ([row].headD []).length pp.degree_ pp.interaction_only_
        pp.include_bias_).enum.map fun ic => String.intercalate
          (if ([row].headD []).length + (if pp.include_bias_ then 1 else 0) ≤ ic.1
            then "*" else "") (ic.2.map fun j => row.getD j "")) :=
    mapExc_ok _ _ _ (fun ic _ => rfl)
  rw [hmap]
  unfold lexPerRowSpec
  rfl

/-- Witness for the amended C4 at the single-row matrix [[a, b]] with
degree 2 and bias: output columns are the bias, the two values, and
the star-joined degree-2 concatenations. -/
theorem poly_lexical_single_row_witness :
    PolynomialFeatures.transformLex ⟨2, false, true⟩ ⟨2, 6⟩ [["a", "b"]] =
      .ok (lexPerRowSpec [["a", "b"]] 2 false true) :=
  poly_lexical_single_row ⟨2, false, true⟩ ["a", "b"] 6 (by decide)

/-- C7: Standardize.fit raises an error if and only if the matrix has
zero size, the configured axis is out of range, or some per-slice
standard deviation has absolute value below the near-zero epsilon
(zero-dimensional arrays are outside this 2D embedding); otherwise it
stores the per-slice mean and standard deviation with the fit axis
kept as a singleton dimension. -/
theorem standardize_fit_spec (M : List (List ℝ)) (axis : ℕ) :
    ((∃ e, get_mean_and_std M axis = .error e) ↔
      (M.length = 0 ∨ (M.headD []).length = 0 ∨ 2 ≤ axis ∨
        ∃ s ∈ sliceStds M axis, |s| < NEARZERO)) ∧
    (∀ mm ms, get_mean_and_std M axis = .ok (mm, ms) →
      (axis = 0 → mm = [(colsOfR M).map listMean] ∧ ms = [(colsOfR M).map listStd]) ∧
      (axis = 1 → mm = M.map (fun r => [listMean r]) ∧
        ms = M.map (fun r => [listStd r]))) := by
  unfold get_mean_and_std
  split_ifs with h1 h2 h3 h4
  · exact ⟨⟨fun _ => by tauto, fun _ => ⟨_, rfl⟩⟩, fun mm ms h => absurd h (by simp)⟩
  · exact ⟨⟨fun _ => by tauto, fun _ => ⟨_, rfl⟩⟩, fun mm ms h => absurd h (by simp)⟩
  · exact ⟨⟨fun _ => by tauto, fun _ => ⟨_, rfl⟩⟩, fun mm ms h => absurd h (by simp)⟩
  · subst h4
    constructor
    · constructor
      · intro ⟨e, he⟩; exact absurd he (by simp)
      · intro hor
        rcases hor with h | h | h | h
        · exact absurd (Or.inl h) h1
        · exact absurd (Or.inr h) h1
        · exact absurd h h2
        · exact absurd h h3
    · intro mm ms h
      simp only [Except.ok.injEq, Prod.mk.injEq] at h
      obtain ⟨hmm, hms⟩ := h
      constructor
      · intro _
        constructor
        · rw [← hmm]; simp [sliceMeans]
        · rw [← hms]; simp [sliceStds]
      · intro h10; exact absurd h10 (by decide)
  · have ha1 : axis = 1 := by omega
    subst ha1
    constructor
    · constructor
      · intro ⟨e, he⟩; exact absurd he (by simp)
      · intro hor
        rcases hor with h | h | h | h
        · exact absurd (Or.inl h) h1
        · exact absurd (Or.inr h) h1
        · exact absurd h h2
        · exact absurd h h3
    · intro mm ms h
      simp only [Except.ok.injEq, Prod.mk.injEq] at h
      obtain ⟨hmm, hms⟩ := h
      constructor
      · intro h01; exact absurd h01 (by decide)
      · intro _
        constructor
        · rw [← hmm]; simp [sliceMeans, List.map_map]
        · rw [← hms]; simp [sliceStds, List.map_map]

/-- Witness for C7: fitting the empty matrix raises. -/
theorem standardize_fit_spec_witness :
    ∃ e, get_mean_and_std ([] : List (List ℝ)) 0 = .error e :=
  (standardize_fit_spec ([] : List (List ℝ)) 0).1.mpr (Or.inl rfl)

theorem colsOfR_length (M : List (List ℝ)) : (colsOfR M).length = (M.headD []).length := by
  simp [colsOfR]

theorem nearzero_pos : (0 : ℝ) < NEARZERO := by norm_num [NEARZERO]

theorem sliceStds_ne_zero (M : List (List ℝ)) (axis : ℕ)
    (h3 : ¬∃ s ∈ sliceStds M axis, |s| < NEARZERO) :
    ∀ s ∈ sliceStds M axis, s ≠ 0 := by
  intro s hs hs0
  exact h3 ⟨s, hs, by rw [hs0, abs_zero]; exact nearzero_pos⟩

theorem row_roundtrip0 : ∀ (row means stds : List ℝ),
    row.length = means.length → means.length = stds.length → (∀ s ∈ stds, s ≠ 0) →
    (((row.zip (means.zip stds)).map fun p => (p.1 - p.2.1) / p.2.2).zip
      (means.zip stds)).map (fun p => p.1 * p.2.2 + p.2.1) = row := by
  intro row
  induction row with
  | nil => intro means stds h1 h2 h3; simp
  | cons x xs ih =>
      intro means stds h1 h2 h3
      cases means with
      | nil => simp at h1
      | cons m ms =>
          cases stds with
          | nil => simp at h2
          | cons s ss =>
              have hs : s ≠ 0 := h3 s (by simp)
              simp only [List.zip_cons_cons, List.map_cons, List.cons.injEq]
              constructor
              · field_simp
              · exact ih ms ss (by simpa using h1) (by simpa using h2)
                  (fun t ht => h3 t (by simp [ht]))

theorem matrix_roundtrip1 : ∀ (Ms : List (List ℝ)) (means stds : List ℝ),
    Ms.length = means.length → means.length = stds.length → (∀ s ∈ stds, s ≠ 0) →
    (((Ms.zip (means.zip stds)).map fun p => p.1.map fun x => (x - p.2.1) / p.2.2).zip
      (means.zip stds)).map (fun p => p.1.map fun x => x * p.2.2 + p.2.1) = Ms := by
  intro Ms
  induction Ms with
  | nil => intro means stds h1 h2 h3; simp
  | cons r rs ih =>
      intro means stds h1 h2 h3
      cases means with
      | nil => simp at h1
      | cons m ms =>
          cases stds with
          | nil => simp at h2
          | cons s ss =>
              have hs : s ≠ 0 := h3 s (by simp)
              simp only [List.zip_cons_cons, List.map_cons, List.cons.injEq]
              constructor
              · rw [List.map_map]
                have hid : ∀ x ∈ r, ((fun x => x * s + m) ∘ fun x => (x - m) / s) x = x := by
                  intro x _
                  simp only [Function.comp]
                  field_simp
                rw [List.map_congr_left hid]
                simp
              · exact ih ms ss (by simpa using h1) (by simpa using h2)
                  (fun t ht => h3 t (by simp [ht]))

/-- C2: for every non-empty matrix M on which Standardize.fit succeeds
(no per-slice standard deviation within the near-zero epsilon of 0),
and for axis 0 or 1, reverse_transform(transform(M)) restores M (the
arithmetic is exact in this real-number model, so the floating
tolerance of the claim becomes equality). -/
theorem standardize_roundtrip (M : List (List ℝ)) (axis : ℕ) (mm ms : List (List ℝ))
    (hrect : IsRect M) (hfit : get_mean_and_std M axis = .ok (mm, ms)) :
    ∃ T, standardize M mm ms axis = .ok T ∧ reverse_standardize T mm ms axis = .ok M := by
  unfold get_mean_and_std at hfit
  split_ifs at hfit with h1 h2 h3 h4
  · -- axis = 0
    subst h4
    simp only [Except.ok.injEq, Prod.mk.injEq] at hfit
    obtain ⟨hmm, hms⟩ := hfit
    subst hmm hms
    have hM0 : M.length ≠ 0 := fun h => h1 (Or.inl h)
    have hn0 : (M.headD []).length ≠ 0 := fun h => h1 (Or.inr h)
    have hsnz : ∀ s ∈ sliceStds M 0, s ≠ 0 := sliceStds_ne_zero M 0 h3
    have hmlen : (sliceMeans M 0).length = (M.headD []).length := by
      simp [sliceMeans, colsOfR_length]
    have hslen : (sliceStds M 0).length = (M.headD []).length := by
      simp [sliceStds, colsOfR_length]
    have hrow : ∀ row ∈ M,
        (((row.zip ((sliceMeans M 0).zip (sliceStds M 0))).map
            fun p => (p.1 - p.2.1) / p.2.2).zip
          ((sliceMeans M 0).zip (sliceStds M 0))).map
            (fun p => p.1 * p.2.2 + p.2.1) = row := by
      intro row hr
      exact row_roundtrip0 row _ _ (by rw [hrect row hr, hmlen]) (by rw [hmlen, hslen]) hsnz
    unfold standardize
    rw [if_neg h1, if_neg h2]
    refine ⟨_, rfl, ?_⟩
    unfold reverse_standardize
    have hTval : standardizeVals M [sliceMeans M 0] [sliceStds M 0] 0 =
        M.map fun row => (row.zip ((sliceMeans M 0).zip (sliceStds M 0))).map
          fun p => (p.1 - p.2.1) / p.2.2 := by
      unfold standardizeVals subDiv0
      simp
    rw [if_neg ?hsz, if_neg h2]
    case hsz =>
      rw [hTval]
      intro hor
      rcases hor with h | h
      · rw [List.length_map] at h; exact hM0 h
      · rw [headD_eq_getD,
          getD_map_of_lt _ M 0 [] [] (by omega),
          List.length_map, List.length_zip, List.length_zip, hmlen, hslen,
          ← headD_eq_getD] at h
        have := hrect (M.headD []) (by
          rw [headD_eq_getD]
          rw [List.getD_eq_getElem _ _ (by omega)]
          exact List.getElem_mem _)
        omega
    rw [hTval]
    unfold reverse_standardizeVals mulAdd0
    simp only [if_pos rfl, List.headD_cons, List.map_map]
    have : (M.map ((fun row => (row.zip ((sliceMeans M 0).zip (sliceStds M 0))).map
        fun p => p.1 * p.2.2 + p.2.1) ∘ (fun row =>
          (row.zip ((sliceMeans M 0).zip (sliceStds M 0))).map
            fun p => (p.1 - p.2.1) / p.2.2))) = M.map id := by
      apply List.map_congr_left
      intro row hr
      exact hrow row hr
    rw [this, List.map_id]
    simp
  · -- axis = 1
    have ha1 : axis = 1 := by omega
    subst ha1
    simp only [Except.ok.injEq, Prod.mk.injEq] at hfit
    obtain ⟨hmm, hms⟩ := hfit
    subst hmm hms
    have hM0 : M.length ≠ 0 := fun h => h1 (Or.inl h)
    have hn0 : (M.headD []).length ≠ 0 := fun h => h1 (Or.inr h)
    have hsnz : ∀ s ∈ sliceStds M 1, s ≠ 0 := sliceStds_ne_zero M 1 h3
    have hmlen : (sliceMeans M 1).length = M.length := by simp [sliceMeans]
    have hslen : (sliceStds M 1).length = M.length := by simp [sliceStds]
    have hflat : ∀ l : List ℝ, ((l.map fun x => [x]).map fun r => r.headD 0) = l := by
      intro l
      rw [List.map_map]
      have hcomp : ((fun r : List ℝ => r.headD 0) ∘ fun x : ℝ => [x]) = id := rfl
      rw [hcomp, List.map_id]
    unfold standardize
    rw [if_neg h1, if_neg h2]
    refine ⟨_, rfl, ?_⟩
    unfold reverse_standardize
    have hTval : standardizeVals M ((sliceMeans M 1).map fun x => [x])
        ((sliceStds M 1).map fun x => [x]) 1 =
        (M.zip ((sliceMeans M 1).zip (sliceStds M 1))).map
          fun p => p.1.map fun x => (x - p.2.1) / p.2.2 := by
      unfold standardizeVals subDiv1
      simp only [one_ne_zero, if_false, hflat]
    rw [if_neg ?hsz1, if_neg h2]
    case hsz1 =>
      rw [hTval]
      intro hor
      rcases hor with h | h
      · rw [List.length_map, List.length_zip, List.length_zip, hmlen, hslen] at h
        omega
      · rw [headD_eq_getD,
          getD_map_of_lt _ _ 0 (([] : List ℝ), ((0 : ℝ), (0 : ℝ))) []
            (by rw [List.length_zip, List.length_zip, hmlen, hslen]; omega),
          getD_zip_lt _ _ 0 [] ((0 : ℝ), (0 : ℝ)) (by omega)
            (by rw [List.length_zip, hmlen, hslen]; omega),
          List.length_map, ← headD_eq_getD] at h
        exact hn0 h
    rw [hTval]
    unfold reverse_standardizeVals mulAdd1
    simp only [one_ne_zero, if_false, hflat]
    exact congrArg Except.ok
      (matrix_roundtrip1 M (sliceMeans M 1) (sliceStds M 1) hmlen.symm
        (by rw [hmlen, hslen]) hsnz)

theorem listMean_zero_two : listMean [(0 : ℝ), 2] = 1 := by
  norm_num [listMean]

theorem listStd_zero_two : listStd [(0 : ℝ), 2] = 1 := by
  unfold listStd
  rw [listMean_zero_two]
  have hval : (([(0 : ℝ), 2].map fun x => (x - 1) ^ 2).sum / (([(0 : ℝ), 2].length : ℕ) : ℝ))
      = 1 := by
    simp [List.sum_cons]
    norm_num
  rw [hval, Real.sqrt_one]

theorem fit_zero_two : get_mean_and_std [[(0 : ℝ)], [2]] 0 = .ok ([[1]], [[1]]) := by
  have hcols : colsOfR [[(0 : ℝ)], [2]] = [[0, 2]] := rfl
  have hsmeans : sliceMeans [[(0 : ℝ)], [2]] 0 = [1] := by
    unfold sliceMeans
    rw [if_pos rfl, hcols]
    simp [listMean_zero_two]
  have hsstds : sliceStds [[(0 : ℝ)], [2]] 0 = [1] := by
    unfold sliceStds
    rw [if_pos rfl, hcols]
    simp [listStd_zero_two]
  have hnz : ¬∃ s ∈ sliceStds [[(0 : ℝ)], [2]] 0, |s| < NEARZERO := by
    rw [hsstds]
    rintro ⟨s, hs, habs⟩
    simp only [List.mem_singleton] at hs
    subst hs
    rw [abs_one] at habs
    norm_num [NEARZERO] at habs
  unfold get_mean_and_std
  rw [if_neg (by norm_num), if_neg (by norm_num), if_neg hnz, if_pos rfl, hsmeans, hsstds]

/-- Witness for C2: the matrix [[0], [2]] fitted on axis 0 has mean 1
and standard deviation 1, and the transform round-trips exactly. -/
theorem standardize_roundtrip_witness :
    ∃ T, standardize [[(0 : ℝ)], [2]] [[1]] [[1]] 0 = .ok T ∧
      reverse_standardize T [[1]] [[1]] 0 = .ok [[(0 : ℝ)], [2]] :=
  standardize_roundtrip [[(0 : ℝ)], [2]] 0 [[1]] [[1]] (by decide) fit_zero_two

theorem getD_append_left {α : Type _} (l1 l2 : List α) (n : ℕ) (d : α) (h : n < l1.length) :
    (l1 ++ l2).getD n d = l1.getD n d := by
  rw [List.getD_eq_getElem _ _ (by rw [List.length_append]; omega),
    List.getD_eq_getElem _ _ h, List.getElem_append_left]

/-- C8: for every fitted Standardize and matrix whose dtype is not
float64, transform and reverse_transform with copy=False raise the
type error before any mutation, leaving the store unchanged; with
copy=True the dtype restriction does not apply and a successful result
is a fresh buffer distinct from the input reference, with the input
buffer unchanged. -/
theorem standardize_copy_semantics (σ : Store) (ref : ℕ) (mm ms : List (List ℝ)) (axis : ℕ)
    (href : ref < σ.bufs.length)
    (hdt : (σ.bufs.getD ref default).dtype ≠ "float64") :
    (standardizeOp σ ref mm ms axis false = .error ("Matrix should be of type float64", σ) ∧
     reverse_standardizeOp σ ref mm ms axis false =
       .error ("Matrix should be of type float64", σ)) ∧
    (∀ σ2 r, standardizeOp σ ref mm ms axis true = .ok (σ2, r) →
       r = σ.bufs.length ∧ r ≠ ref ∧
         σ2.bufs.getD ref default = σ.bufs.getD ref default) ∧
    (∀ σ2 r, reverse_standardizeOp σ ref mm ms axis true = .ok (σ2, r) →
       r = σ.bufs.length ∧ r ≠ ref ∧
         σ2.bufs.getD ref default = σ.bufs.getD ref default) := by
  refine ⟨⟨?_, ?_⟩, ?_, ?_⟩
  · unfold standardizeOp
    rw [if_pos ⟨by simp, hdt⟩]
  · unfold reverse_standardizeOp
    rw [if_pos ⟨by simp, hdt⟩]
  · intro σ2 r h
    unfold standardizeOp at h
    split_ifs at h with hc1 hc2 hc3 hc4
    · simp only [Except.ok.injEq, Prod.mk.injEq] at h
      obtain ⟨hσ2, hr⟩ := h
      subst hr
      refine ⟨rfl, by omega, ?_⟩
      rw [← hσ2]
      exact getD_append_left _ _ ref default href
    · exact absurd rfl hc4
  · intro σ2 r h
    unfold reverse_standardizeOp at h
    split_ifs at h with hc1 hc2 hc3 hc4
    · simp only [Except.ok.injEq, Prod.mk.injEq] at h
      obtain ⟨hσ2, hr⟩ := h
      subst hr
      refine ⟨rfl, by omega, ?_⟩
      rw [← hσ2]
      exact getD_append_left _ _ ref default href
    · exact absurd rfl hc4

/-- Witness for C8: a store with a single int64 buffer: the in-place
transform raises the type error with the store unchanged. -/
theorem standardize_copy_semantics_witness :
    standardizeOp ⟨[⟨"int64", [[1]]⟩]⟩ 0 [[0]] [[1]] 0 false =
      .error ("Matrix should be of type float64", ⟨[⟨"int64", [[1]]⟩]⟩) :=
  ((standardize_copy_semantics ⟨[⟨"int64", [[1]]⟩]⟩ 0 [[0]] [[1]] 0 (by decide)
    (by decide)).1).1
